import Mathlib

/-!
Verification of the event correlation and classification engine of the
webmcp-debugger chrome extension panel.

The embedding follows the TypeScript sources:
* `event-utils` (categories, `getCategory`, `getEventStatus`, `isEventError`)
* `TimelineEntry`  (`mergeEvents`, `matchKey`, pairing tables, entry projections
  `getEntryStatus`, `isEntryFailed`, `getEntryDuration`, `getEntrySize`, `jsonLen`).

Events are JavaScript objects `\x7b type: string, ts?: number, ...rest \x7d`.
The open payload fields are modelled by a JSON value universe (`Json`) together
with an association list preserving property insertion order; an absent property
is an absent key (JavaScript `undefined` propagates exactly like an absent key
through the operations modelled here).  JavaScript numbers appearing in the
events (timestamps, payload numbers) are modelled as integers.
-/

/-- JSON-like universe for the dynamic payload fields of an event. -/
inductive Json where
  | null : Json
  | bool : Bool → Json
  | num : Int → Json
  | str : String → Json
  | arr : List Json → Json
  | obj : List (String × Json) → Json
deriving Repr

mutual

/-- String coercion `String(v)` of JavaScript, restricted to the `Json` universe:
`null → "null"`, booleans, integer numbers, strings themselves, arrays via
`Array.prototype.join(",")` (with null elements rendered empty), plain objects
as `"[object Object]"`. -/
def jsToString : Json → String
  | Json.null => "null"
  | Json.bool b => if b then "true" else "false"
  | Json.num n => toString n
  | Json.str s => s
  | Json.arr xs => jsArrayToString xs
  | Json.obj _ => "[object Object]"

def jsArrayToString : List Json → String
  | [] => ""
  | [Json.null] => ""
  | [x] => jsToString x
  | Json.null :: x :: xs => "," ++ jsArrayToString (x :: xs)
  | x :: y :: xs => jsToString x ++ "," ++ jsArrayToString (y :: xs)

end

/-- Hex digit used in `\u00XX` escapes produced by `JSON.stringify`. -/
def hexDigit (n : Nat) : String :=
  String.singleton (Nat.digitChar n)

/-- Per-character escaping of `JSON.stringify` for string values. -/
def jsonEscapeChar (c : Char) : String :=
  if c = '"' then "\\\""
  else if c = '\\' then "\\\\"
  else if c.toNat = 8 then "\\b"
  else if c.toNat = 9 then "\\t"
  else if c.toNat = 10 then "\\n"
  else if c.toNat = 12 then "\\f"
  else if c.toNat = 13 then "\\r"
  else if c.toNat < 32 then "\\u00" ++ hexDigit (c.toNat / 16) ++ hexDigit (c.toNat % 16)
  else String.singleton c

/-- A JSON string literal: quotes around the escaped characters. -/
def jsonQuote (s : String) : String :=
  "\"" ++ String.join (s.data.map jsonEscapeChar) ++ "\""

mutual

/-- `JSON.stringify` (no spacing argument) over the `Json` universe. -/
def jsonStringify : Json → String
  | Json.null => "null"
  | Json.bool b => if b then "true" else "false"
  | Json.num n => toString n
  | Json.str s => jsonQuote s
  | Json.arr xs => "[" ++ jsonStringifyArr xs ++ "]"
  | Json.obj fs => "\x7b" ++ jsonStringifyObj fs ++ "\x7d"

def jsonStringifyArr : List Json → String
  | [] => ""
  | [x] => jsonStringify x
  | x :: y :: xs => jsonStringify x ++ "," ++ jsonStringifyArr (y :: xs)

def jsonStringifyObj : List (String × Json) → String
  | [] => ""
  | [(k, v)] => jsonQuote k ++ ":" ++ jsonStringify v
  | (k, v) :: f :: fs => jsonQuote k ++ ":" ++ jsonStringify v ++ "," ++ jsonStringifyObj (f :: fs)

end

/-- Length of a string in UTF-16 code units: JavaScript `String.prototype.length`. -/
def utf16Length (s : String) : Nat :=
  s.data.foldl (fun n c => n + (if c.toNat < 65536 then 1 else 2)) 0

/-- `InspectorEvent`: `type` tag, optional numeric timestamp `ts`, and the open
payload fields in property insertion order. -/
structure InspectorEvent where
  type : String
  ts : Option Int := none
  rest : List (String × Json) := []
deriving Repr

/-- Property access `event.k` on the open payload fields. -/
def InspectorEvent.getField (e : InspectorEvent) (k : String) : Option Json :=
  (e.rest.find? (fun p => p.1 == k)).map (·.2)

/-- `String(x ?? "")`: the nullish coalescing of a possibly-absent field
followed by string coercion. -/
def jsStringOrEmpty : Option Json → String
  | none => ""
  | some Json.null => ""
  | some j => jsToString j

/-- A merged logical entry: stable id, the opening event, optional response. -/
structure MergedEntry where
  id : Nat
  request : InspectorEvent
  response : Option InspectorEvent := none
deriving Repr

/-- Lookup in a string-keyed record literal (own properties only). -/
def lookupTable (table : List (String × String)) (t : String) : Option String :=
  (table.find? (fun p => p.1 == t)).map (·.2)

/-- `REQUEST_PAIR`: opening kinds and their pair-type labels. -/
def REQUEST_PAIR : List (String × String) :=
  [("PROMPT_SENT", "prompt"), ("STREAM_START", "stream"), ("TOOL_CALL", "tool")]

/-- `RESPONSE_PAIR`: closing kinds and their pair-type labels. -/
def RESPONSE_PAIR : List (String × String) :=
  [("PROMPT_RESPONSE", "prompt"), ("PROMPT_ERROR", "prompt"),
   ("STREAM_END", "stream"), ("TOOL_RESULT_AI", "tool")]

/-- `matchKey`: correlation key from the pair type and the event fields. -/
def matchKey (event : InspectorEvent) (pairType : String) : String :=
  let sid := jsStringOrEmpty (event.getField "sessionId")
  if pairType == "tool" then "tool:" ++ sid ++ ":" ++ jsStringOrEmpty (event.getField "tool")
  else pairType ++ ":" ++ sid

/-- The pending correlation table: JavaScript `Map` from key to entry index
(only `get` / `set` / `delete` are used by the merge). -/
def pendingGet (m : List (String × Nat)) (k : String) : Option Nat :=
  (m.find? (fun p => p.1 == k)).map (·.2)

/-- `Map.set`: overwrite the value of an existing key in place, else append. -/
def pendingSet (m : List (String × Nat)) (k : String) (v : Nat) : List (String × Nat) :=
  if m.any (fun p => p.1 == k) then
    m.map (fun p => if p.1 == k then (k, v) else p)
  else m ++ [(k, v)]

/-- `Map.delete`. -/
def pendingDelete (m : List (String × Nat)) (k : String) : List (String × Nat) :=
  m.filter (fun p => !(p.1 == k))

/-- State threaded by the merge loop: output entries, pending table, next id. -/
structure MergeState where
  entries : List MergedEntry
  pending : List (String × Nat)
  nextId : Nat

/-- `entries[idx].response = event`: in-place update of one entry. -/
def setResponse : List MergedEntry → Nat → InspectorEvent → List MergedEntry
  | [], _, _ => []
  | e :: rest, 0, ev => { e with response := some ev } :: rest
  | e :: rest, n + 1, ev => e :: setResponse rest n ev

/-- Entry creation half of the loop body: push a new entry, register the
pending key if the event is an opening kind. -/
def pushEntry (s : MergeState) (event : InspectorEvent) : MergeState :=
  let idx := s.entries.length
  let entries := s.entries ++ [{ id := s.nextId, request := event }]
  match lookupTable REQUEST_PAIR event.type with
  | some reqPair =>
    { entries := entries, pending := pendingSet s.pending (matchKey event reqPair) idx,
      nextId := s.nextId + 1 }
  | none => { entries := entries, pending := s.pending, nextId := s.nextId + 1 }

/-- One iteration of the merge loop. -/
def mergeStep (s : MergeState) (event : InspectorEvent) : MergeState :=
  match lookupTable RESPONSE_PAIR event.type with
  | some resPair =>
    match pendingGet s.pending (matchKey event resPair) with
    | some idx =>
      { entries := setResponse s.entries idx event,
        pending := pendingDelete s.pending (matchKey event resPair),
        nextId := s.nextId }
    | none => pushEntry s event
  | none => pushEntry s event

/-- The state at the start of `mergeEvents`. -/
def initState : MergeState := { entries := [], pending := [], nextId := 0 }

/-- The state after folding the whole event stream. -/
def mergeStates (events : List InspectorEvent) : MergeState :=
  events.foldl mergeStep initState

/-- `mergeEvents`: merges raw inspector events into paired entries. -/
def mergeEvents (events : List InspectorEvent) : List MergedEntry :=
  (mergeStates events).entries

/-- Whether the loop body absorbs the event into a pending entry (the event is
a closing kind whose key is registered in the pending table of state `s`). -/
def absorbs (s : MergeState) (event : InspectorEvent) : Bool :=
  match lookupTable RESPONSE_PAIR event.type with
  | some resPair => (pendingGet s.pending (matchKey event resPair)).isSome
  | none => false

/-- Fold step that also counts absorbed closing events. -/
def absorbStep (p : MergeState × Nat) (event : InspectorEvent) : MergeState × Nat :=
  (mergeStep p.1 event, p.2 + (if absorbs p.1 event then 1 else 0))

/-- Number of closing events of a stream that are absorbed into pending entries. -/
def absorbedCount (events : List InspectorEvent) : Nat :=
  (events.foldl absorbStep (initState, 0)).2

/-- The event opens correlation key `k` (boolean form). -/
def opensKeyB (e : InspectorEvent) (k : String) : Bool :=
  match lookupTable REQUEST_PAIR e.type with
  | some qp => matchKey e qp == k
  | none => false

/-- The event is a closing kind for correlation key `k` (boolean form). -/
def closesKeyB (e : InspectorEvent) (k : String) : Bool :=
  match lookupTable RESPONSE_PAIR e.type with
  | some rp => matchKey e rp == k
  | none => false

/-- `EventCategory`: the closed set of display categories. -/
inductive EventCategory where
  | AI : EventCategory
  | Tool : EventCategory
  | WebMCP : EventCategory
  | Event : EventCategory
  | System : EventCategory
deriving Repr, DecidableEq

/-- `CATEGORY_TYPES`: the category table, in object-literal order. -/
def CATEGORY_TYPES : List (EventCategory × List String) :=
  [(EventCategory.AI,
    ["SESSION_CREATED", "PROMPT_SENT", "PROMPT_RESPONSE", "PROMPT_ERROR",
     "STREAM_START", "STREAM_END"]),
   (EventCategory.Tool, ["TOOL_CALL", "TOOL_RESULT_AI"]),
   (EventCategory.WebMCP, ["TOOL_REGISTERED", "TOOL_UNREGISTERED", "CONTEXT_CLEARED"]),
   (EventCategory.Event, ["TOOL_ACTIVATED", "TOOL_CANCEL"]),
   (EventCategory.System, ["PAGE_RELOAD"])]

/-- `TYPE_TO_CATEGORY`: the inverted lookup built from `CATEGORY_TYPES`.  The
source builds it by successive assignments over the categories in order; as no
type occurs under two categories the resulting record equals this flat list. -/
def TYPE_TO_CATEGORY : List (String × EventCategory) :=
  CATEGORY_TYPES.flatMap (fun p => p.2.map (fun t => (t, p.1)))

/-- `getCategory`: total lookup with default `System`. -/
def getCategory (type : String) : EventCategory :=
  ((TYPE_TO_CATEGORY.find? (fun p => p.1 == type)).map (·.2)).getD EventCategory.System

/-- Status record `\x7b label, color \x7d` returned by `getEventStatus`. -/
structure EventStatus where
  label : String
  color : String
deriving Repr, DecidableEq

/-- Loose equality `x == null` of JavaScript: true iff absent or null. -/
def isNullish : Option Json → Bool
  | none => true
  | some Json.null => true
  | some _ => false

/-- Truthiness of the tool-result error check `e.error != null && e.error !== ""`:
the field is present, not null, and not the empty string. -/
def errorFieldSet (o : Option Json) : Bool :=
  match o with
  | none => false
  | some Json.null => false
  | some (Json.str s) => !(s == "")
  | some _ => true

/-- `getEventStatus`: short status indicator for the event. -/
def getEventStatus (e : InspectorEvent) : EventStatus :=
  if e.type == "PROMPT_ERROR" then { label := "error", color := "#f44336" }
  else if e.type == "PROMPT_RESPONSE" || e.type == "STREAM_END" then
    { label := "ok", color := "#4caf50" }
  else if e.type == "TOOL_RESULT_AI" then
    if errorFieldSet (e.getField "error") then { label := "error", color := "#f44336" }
    else if isNullish (e.getField "result") then
      { label := "empty", color := "#ff9800" }
    else { label := "ok", color := "#4caf50" }
  else if e.type == "PROMPT_SENT" || e.type == "STREAM_START" || e.type == "TOOL_CALL" then
    { label := "sent", color := "#ff9800" }
  else if e.type == "SESSION_CREATED" then { label := "new", color := "#2196f3" }
  else if e.type == "TOOL_REGISTERED" then { label := "+", color := "#4caf50" }
  else if e.type == "TOOL_UNREGISTERED" then { label := "−", color := "#f44336" }
  else if e.type == "CONTEXT_CLEARED" then { label := "clear", color := "#ff5722" }
  else if e.type == "PAGE_RELOAD" then { label := "reload", color := "#607d8b" }
  else { label := "—", color := "#999" }

/-- `isEventError`: true if the event itself represents a failure. -/
def isEventError (e : InspectorEvent) : Bool :=
  if e.type == "PROMPT_ERROR" then true
  else if e.type == "TOOL_RESULT_AI" && errorFieldSet (e.getField "error") then true
  else false

/-- `getEntryStatus`: status of the response when present, the synthetic
pending status for unresolved pairable requests, else status of the request. -/
def getEntryStatus (e : MergedEntry) : EventStatus :=
  match e.response with
  | some r => getEventStatus r
  | none =>
    if (lookupTable REQUEST_PAIR e.request.type).isSome then
      { label := "pending", color := "#ff9800" }
    else getEventStatus e.request

/-- `isEntryFailed`: response error, request error, or unresolved pairable. -/
def isEntryFailed (e : MergedEntry) : Bool :=
  if (e.response.map isEventError).getD false then true
  else if isEventError e.request then true
  else if (lookupTable REQUEST_PAIR e.request.type).isSome && e.response.isNone then true
  else false

/-- `jsonLen`: `JSON.stringify(rest).length` where `rest` drops `type` and
`ts`; JavaScript string length counts UTF-16 code units. -/
def jsonLen (ev : InspectorEvent) : Nat :=
  utf16Length (jsonStringify (Json.obj ev.rest))

/-- `(bytes / 1024).toFixed(1)` for a byte count: round half up on the exact
rational (`bytes / 1024` is a power-of-two division, hence exact in the
double arithmetic used by the source for every realistic size). -/
def kbFixed1 (bytes : Nat) : String :=
  let q := (bytes * 5 + 256) / 512
  s!"{q / 10}.{q % 10} KB"

/-- `getEntrySize`: request length plus response length when present,
formatted as bytes below 1024, else kilobytes with one decimal. -/
def getEntrySize (e : MergedEntry) : String :=
  let bytes := jsonLen e.request + ((e.response.map jsonLen).getD 0)
  if bytes < 1024 then s!"{bytes} B" else kbFixed1 bytes

/-- `(ms / 1000).toFixed(2)` for a non-negative millisecond count: round half
up on the exact rational `ms / 1000` (the double rounding performed by the
source before `toFixed` is not modelled; it can differ only on exact ties). -/
def secondsFixed2 (ms : Int) : String :=
  let q := (ms.toNat + 5) / 10
  let d := q % 100
  if d < 10 then s!"{q / 100}.0{d} s" else s!"{q / 100}.{d} s"

/-- Formatting of a millisecond duration by `getEntryDuration`. -/
def formatDuration (ms : Int) : String :=
  if ms < 1000 then s!"{ms} ms" else secondsFixed2 ms

/-- Numeric part of `getEntryDuration`: `response.ts - request.ts` when a
response is present and both timestamps are numbers. -/
def durationMs (e : MergedEntry) : Option Int :=
  match e.response with
  | none => none
  | some r =>
    match e.request.ts, r.ts with
    | some startTs, some endTs => some (endTs - startTs)
    | _, _ => none

/-- `getEntryDuration`: formatted elapsed time, or null. -/
def getEntryDuration (e : MergedEntry) : Option String :=
  (durationMs e).map formatDuration

/-! ### Basic lemmas about the state operations -/

theorem setResponse_length (l : List MergedEntry) (i : Nat) (ev : InspectorEvent) :
    (setResponse l i ev).length = l.length := by
  induction l generalizing i with
  | nil => rfl
  | cons e rest ih =>
    cases i with
    | zero => rfl
    | succ n => simp [setResponse, ih]

theorem setResponse_get?_ne (l : List MergedEntry) (i j : Nat) (ev : InspectorEvent)
    (h : j ≠ i) : (setResponse l i ev).get? j = l.get? j := by
  induction l generalizing i j with
  | nil => rfl
  | cons e rest ih =>
    cases i with
    | zero =>
      cases j with
      | zero => exact absurd rfl h
      | succ m => rfl
    | succ n =>
      cases j with
      | zero => rfl
      | succ m =>
        simp only [setResponse, List.get?]
        exact ih n m (fun hh => h (by rw [hh]))

theorem setResponse_get?_self (l : List MergedEntry) (i : Nat) (ev : InspectorEvent)
    (a : MergedEntry) (h : l.get? i = some a) :
    (setResponse l i ev).get? i = some { a with response := some ev } := by
  induction l generalizing i with
  | nil => simp at h
  | cons e rest ih =>
    cases i with
    | zero =>
      simp only [List.get?] at h
      cases h
      rfl
    | succ n =>
      simp only [List.get?] at h
      simpa [setResponse] using ih n h

theorem setResponse_map_id (l : List MergedEntry) (i : Nat) (ev : InspectorEvent) :
    (setResponse l i ev).map (·.id) = l.map (·.id) := by
  induction l generalizing i with
  | nil => rfl
  | cons e rest ih =>
    cases i with
    | zero => rfl
    | succ n => simp [setResponse, ih]

theorem find?_cons_cond {α : Type} (p : α → Bool) (a : α) (l : List α) :
    (a :: l).find? p = cond (p a) (some a) (l.find? p) := by
  cases h : p a <;> simp [List.find?, h]

theorem find?_overwrite_self (m : List (String × Nat)) (k : String) (v : Nat)
    (h : m.any (fun p => p.1 == k) = true) :
    (m.map (fun p => if p.1 == k then (k, v) else p)).find? (fun p => p.1 == k)
      = some (k, v) := by
  induction m with
  | nil => simp at h
  | cons p rest ih =>
    by_cases hp : (p.1 == k) = true
    · simp only [List.map_cons, hp, if_true]
      rw [find?_cons_cond]
      simp
    · have hpf : (p.1 == k) = false := by simpa using hp
      simp only [List.any_cons, hpf, Bool.false_or] at h
      simp only [List.map_cons, hpf]
      rw [if_neg (by simp), find?_cons_cond, hpf]
      simpa using ih h

theorem find?_overwrite_ne (m : List (String × Nat)) (k k2 : String) (v : Nat)
    (h : (k2 == k) = false) :
    (m.map (fun p => if p.1 == k then (k, v) else p)).find? (fun p => p.1 == k2)
      = m.find? (fun p => p.1 == k2) := by
  have hkk : (k == k2) = false := by
    simp only [beq_eq_false_iff_ne] at h ⊢
    exact fun hh => h hh.symm
  induction m with
  | nil => rfl
  | cons p rest ih =>
    by_cases hp : (p.1 == k) = true
    · have hpk : p.1 = k := by simpa using hp
      have h2 : (p.1 == k2) = false := by rw [hpk]; exact hkk
      simp only [List.map_cons, hp, if_true]
      rw [find?_cons_cond, find?_cons_cond, h2]
      simpa [hkk] using ih
    · have hpf : (p.1 == k) = false := by simpa using hp
      simp only [List.map_cons, hpf]
      rw [if_neg (by simp), find?_cons_cond, find?_cons_cond]
      cases hq : (p.1 == k2) with
      | true => simp
      | false => simpa using ih

theorem pendingGet_set_self (m : List (String × Nat)) (k : String) (v : Nat) :
    pendingGet (pendingSet m k v) k = some v := by
  unfold pendingGet pendingSet
  by_cases hany : m.any (fun p => p.1 == k) = true
  · rw [if_pos hany, find?_overwrite_self m k v hany]
    rfl
  · rw [if_neg hany, List.find?_append]
    have hnone : m.find? (fun p => p.1 == k) = none := by
      rw [List.find?_eq_none]
      intro p hp hpk
      exact hany (List.any_eq_true.mpr ⟨p, hp, hpk⟩)
    rw [hnone, find?_cons_cond]
    simp

theorem pendingGet_set_ne (m : List (String × Nat)) (k k2 : String) (v : Nat)
    (h : k2 ≠ k) : pendingGet (pendingSet m k v) k2 = pendingGet m k2 := by
  have hb : (k2 == k) = false := by simpa using h
  have hkk : (k == k2) = false := by
    simp only [beq_eq_false_iff_ne]
    exact fun hh => h hh.symm
  unfold pendingGet pendingSet
  by_cases hany : m.any (fun p => p.1 == k) = true
  · rw [if_pos hany, find?_overwrite_ne m k k2 v hb]
  · rw [if_neg hany, List.find?_append]
    cases hf : m.find? (fun p => p.1 == k2) with
    | some q => simp
    | none =>
      rw [find?_cons_cond]
      simp [hkk]

theorem pendingGet_delete_self (m : List (String × Nat)) (k : String) :
    pendingGet (pendingDelete m k) k = none := by
  unfold pendingGet pendingDelete
  rw [List.find?_eq_none.mpr]
  · rfl
  · intro p hp
    have := List.of_mem_filter hp
    simpa using this

theorem pendingGet_delete_ne (m : List (String × Nat)) (k k2 : String)
    (h : k2 ≠ k) : pendingGet (pendingDelete m k) k2 = pendingGet m k2 := by
  unfold pendingGet pendingDelete
  induction m with
  | nil => rfl
  | cons p rest ih =>
    by_cases hp : (p.1 == k) = true
    · have hpk : p.1 = k := by simpa using hp
      have h2 : (p.1 == k2) = false := by
        rw [hpk]
        simp only [beq_eq_false_iff_ne]
        exact fun hh => h hh.symm
      simp only [List.filter_cons, hp, Bool.not_true, if_false]
      rw [find?_cons_cond, h2]
      simpa using ih
    · have hpf : (p.1 == k) = false := by simpa using hp
      simp only [List.filter_cons, hpf, Bool.not_false, if_true]
      rw [find?_cons_cond, find?_cons_cond]
      cases hq : (p.1 == k2) with
      | true => simp
      | false => simpa using ih

theorem pendingGet_delete_of_some (m : List (String × Nat)) (k k2 : String) (v : Nat)
    (h : pendingGet (pendingDelete m k) k2 = some v) : pendingGet m k2 = some v := by
  by_cases hk : k2 = k
  · rw [hk, pendingGet_delete_self] at h
    exact absurd h (by simp)
  · rwa [pendingGet_delete_ne m k k2 hk] at h

/-! ### Characterizations of the loop body -/

theorem pushEntry_open (s : MergeState) (e : InspectorEvent) (qp : String)
    (h : lookupTable REQUEST_PAIR e.type = some qp) :
    pushEntry s e =
      { entries := s.entries ++ [{ id := s.nextId, request := e }],
        pending := pendingSet s.pending (matchKey e qp) s.entries.length,
        nextId := s.nextId + 1 } := by
  unfold pushEntry
  rw [h]

theorem pushEntry_plain (s : MergeState) (e : InspectorEvent)
    (h : lookupTable REQUEST_PAIR e.type = none) :
    pushEntry s e =
      { entries := s.entries ++ [{ id := s.nextId, request := e }],
        pending := s.pending, nextId := s.nextId + 1 } := by
  unfold pushEntry
  rw [h]

theorem mergeStep_absorb (s : MergeState) (e : InspectorEvent) (rp : String) (idx : Nat)
    (hr : lookupTable RESPONSE_PAIR e.type = some rp)
    (hidx : pendingGet s.pending (matchKey e rp) = some idx) :
    mergeStep s e =
      { entries := setResponse s.entries idx e,
        pending := pendingDelete s.pending (matchKey e rp),
        nextId := s.nextId } := by
  simp only [mergeStep, hr, hidx]

theorem mergeStep_orphan (s : MergeState) (e : InspectorEvent) (rp : String)
    (hr : lookupTable RESPONSE_PAIR e.type = some rp)
    (hidx : pendingGet s.pending (matchKey e rp) = none) :
    mergeStep s e = pushEntry s e := by
  simp only [mergeStep, hr, hidx]

theorem mergeStep_noRes (s : MergeState) (e : InspectorEvent)
    (hr : lookupTable RESPONSE_PAIR e.type = none) :
    mergeStep s e = pushEntry s e := by
  simp only [mergeStep, hr]

theorem pushEntry_entries (s : MergeState) (e : InspectorEvent) :
    (pushEntry s e).entries = s.entries ++ [{ id := s.nextId, request := e }] := by
  cases hq : lookupTable REQUEST_PAIR e.type with
  | some qp => rw [pushEntry_open s e qp hq]
  | none => rw [pushEntry_plain s e hq]

theorem pushEntry_nextId (s : MergeState) (e : InspectorEvent) :
    (pushEntry s e).nextId = s.nextId + 1 := by
  cases hq : lookupTable REQUEST_PAIR e.type with
  | some qp => rw [pushEntry_open s e qp hq]
  | none => rw [pushEntry_plain s e hq]

/-- Membership consequence of a successful table lookup. -/
theorem lookupTable_mem (table : List (String × String)) (t v : String)
    (h : lookupTable table t = some v) : (t, v) ∈ table := by
  unfold lookupTable at h
  cases hf : table.find? (fun p => p.1 == t) with
  | none => rw [hf] at h; exact absurd h (by simp)
  | some q =>
    rw [hf] at h
    simp at h
    have hmem := List.mem_of_find?_eq_some hf
    have hkey := List.find?_some hf
    have : q = (t, v) := by
      cases q with
      | mk a b =>
        simp only at h
        simp only [beq_iff_eq] at hkey
        simp [hkey, h]
    rwa [this] at hmem

/-- An opening kind is never a closing kind. -/
theorem request_not_response (t qp : String)
    (h : lookupTable REQUEST_PAIR t = some qp) :
    lookupTable RESPONSE_PAIR t = none := by
  have hmem := lookupTable_mem REQUEST_PAIR t qp h
  simp only [REQUEST_PAIR, List.mem_cons, List.not_mem_nil, or_false,
    Prod.mk.injEq] at hmem
  rcases hmem with ⟨rfl, h1⟩ | ⟨rfl, h1⟩ | ⟨rfl, h1⟩ <;> decide

/-! ### State invariants of the merge loop -/

/-- Every index registered in the pending table points into the entry list. -/
def pendingBounded (s : MergeState) : Prop :=
  ∀ k v, pendingGet s.pending k = some v → v < s.entries.length

theorem pushEntry_pendingBounded (s : MergeState) (e : InspectorEvent)
    (h : pendingBounded s) : pendingBounded (pushEntry s e) := by
  intro k v hv
  rw [pushEntry_entries]
  cases hq : lookupTable REQUEST_PAIR e.type with
  | some qp =>
    rw [pushEntry_open s e qp hq] at hv
    simp only at hv
    by_cases hk : k = matchKey e qp
    · rw [hk, pendingGet_set_self] at hv
      cases hv
      simp
    · rw [pendingGet_set_ne _ _ _ _ hk] at hv
      have := h k v hv
      simp only [List.length_append, List.length_singleton]
      omega
  | none =>
    rw [pushEntry_plain s e hq] at hv
    simp only at hv
    have := h k v hv
    simp only [List.length_append, List.length_singleton]
    omega

theorem mergeStep_pendingBounded (s : MergeState) (e : InspectorEvent)
    (h : pendingBounded s) : pendingBounded (mergeStep s e) := by
  cases hr : lookupTable RESPONSE_PAIR e.type with
  | some rp =>
    cases hi : pendingGet s.pending (matchKey e rp) with
    | some idx =>
      rw [mergeStep_absorb s e rp idx hr hi]
      intro k v hv
      simp only at hv ⊢
      rw [setResponse_length]
      exact h k v (pendingGet_delete_of_some _ _ _ _ hv)
    | none =>
      rw [mergeStep_orphan s e rp hr hi]
      exact pushEntry_pendingBounded s e h
  | none =>
    rw [mergeStep_noRes s e hr]
    exact pushEntry_pendingBounded s e h

theorem foldl_pendingBounded (l : List InspectorEvent) (s : MergeState)
    (h : pendingBounded s) : pendingBounded (l.foldl mergeStep s) := by
  induction l generalizing s with
  | nil => exact h
  | cons e rest ih => exact ih (mergeStep s e) (mergeStep_pendingBounded s e h)

theorem mergeStates_pendingBounded (events : List InspectorEvent) :
    pendingBounded (mergeStates events) := by
  apply foldl_pendingBounded
  intro k v hv
  exact absurd hv (by simp [pendingGet, initState, List.find?])

/-- Entry `idx` exists and no pending key points at it: the entry can no
longer change, whatever events follow. -/
def entryStable (s : MergeState) (idx : Nat) : Prop :=
  idx < s.entries.length ∧ ∀ k, pendingGet s.pending k ≠ some idx

theorem pushEntry_entryStable (s : MergeState) (e : InspectorEvent) (idx : Nat)
    (h : entryStable s idx) :
    entryStable (pushEntry s e) idx ∧ (pushEntry s e).entries.get? idx = s.entries.get? idx := by
  obtain ⟨hlt, hkeys⟩ := h
  have hget : (pushEntry s e).entries.get? idx = s.entries.get? idx := by
    rw [pushEntry_entries, List.get?_append hlt]
  have hlen : idx < (pushEntry s e).entries.length := by
    rw [pushEntry_entries]
    simp only [List.length_append, List.length_singleton]
    omega
  refine ⟨⟨hlen, ?_⟩, hget⟩
  intro k hv
  cases hq : lookupTable REQUEST_PAIR e.type with
  | some qp =>
    rw [pushEntry_open s e qp hq] at hv
    simp only at hv
    by_cases hk : k = matchKey e qp
    · rw [hk, pendingGet_set_self] at hv
      cases hv
      exact absurd hlt (by omega)
    · rw [pendingGet_set_ne _ _ _ _ hk] at hv
      exact hkeys k hv
  | none =>
    rw [pushEntry_plain s e hq] at hv
    exact hkeys k hv

theorem mergeStep_entryStable (s : MergeState) (e : InspectorEvent) (idx : Nat)
    (h : entryStable s idx) :
    entryStable (mergeStep s e) idx ∧ (mergeStep s e).entries.get? idx = s.entries.get? idx := by
  obtain ⟨hlt, hkeys⟩ := h
  cases hr : lookupTable RESPONSE_PAIR e.type with
  | some rp =>
    cases hi : pendingGet s.pending (matchKey e rp) with
    | some idx2 =>
      rw [mergeStep_absorb s e rp idx2 hr hi]
      have hne : idx ≠ idx2 := by
        intro hh
        exact hkeys (matchKey e rp) (by rw [← hh] at hi; exact hi)
      constructor
      · refine ⟨by simpa [setResponse_length] using hlt, ?_⟩
        intro k hv
        simp only at hv
        exact hkeys k (pendingGet_delete_of_some _ _ _ _ hv)
      · simp only
        exact setResponse_get?_ne s.entries idx2 idx e hne
    | none =>
      rw [mergeStep_orphan s e rp hr hi]
      exact pushEntry_entryStable s e idx ⟨hlt, hkeys⟩
  | none =>
    rw [mergeStep_noRes s e hr]
    exact pushEntry_entryStable s e idx ⟨hlt, hkeys⟩

theorem foldl_entryStable (l : List InspectorEvent) (s : MergeState) (idx : Nat)
    (h : entryStable s idx) :
    entryStable (l.foldl mergeStep s) idx ∧
      (l.foldl mergeStep s).entries.get? idx = s.entries.get? idx := by
  induction l generalizing s with
  | nil => exact ⟨h, rfl⟩
  | cons e rest ih =>
    obtain ⟨h1, h2⟩ := mergeStep_entryStable s e idx h
    obtain ⟨h3, h4⟩ := ih (mergeStep s e) h1
    exact ⟨h3, by rw [List.foldl_cons, h4, h2]⟩

/-- Entry `idx` exists, and only the key `k` may point at it. -/
def entrySafe (s : MergeState) (k : String) (idx : Nat) : Prop :=
  idx < s.entries.length ∧ ∀ k2, k2 ≠ k → pendingGet s.pending k2 ≠ some idx

theorem mergeStep_entrySafe (s : MergeState) (e : InspectorEvent) (k : String) (idx : Nat)
    (h : entrySafe s k idx) (hc : closesKeyB e k = false) :
    entrySafe (mergeStep s e) k idx ∧ (mergeStep s e).entries.get? idx = s.entries.get? idx := by
  obtain ⟨hlt, hkeys⟩ := h
  have hpush : ∀ s2 : MergeState, s2 = pushEntry s e →
      entrySafe s2 k idx ∧ s2.entries.get? idx = s.entries.get? idx := by
    rintro _ rfl
    have hget : (pushEntry s e).entries.get? idx = s.entries.get? idx := by
      rw [pushEntry_entries, List.get?_append hlt]
    have hlen : idx < (pushEntry s e).entries.length := by
      rw [pushEntry_entries]
      simp only [List.length_append, List.length_singleton]
      omega
    refine ⟨⟨hlen, ?_⟩, hget⟩
    intro k2 hk2 hv
    cases hq : lookupTable REQUEST_PAIR e.type with
    | some qp =>
      rw [pushEntry_open s e qp hq] at hv
      simp only at hv
      by_cases hk : k2 = matchKey e qp
      · rw [hk, pendingGet_set_self] at hv
        cases hv
        exact absurd hlt (by omega)
      · rw [pendingGet_set_ne _ _ _ _ hk] at hv
        exact hkeys k2 hk2 hv
    | none =>
      rw [pushEntry_plain s e hq] at hv
      exact hkeys k2 hk2 hv
  cases hr : lookupTable RESPONSE_PAIR e.type with
  | some rp =>
    have hkne : matchKey e rp ≠ k := by
      simp only [closesKeyB, hr] at hc
      exact beq_eq_false_iff_ne.mp hc
    cases hi : pendingGet s.pending (matchKey e rp) with
    | some idx2 =>
      rw [mergeStep_absorb s e rp idx2 hr hi]
      have hne : idx ≠ idx2 := by
        intro hh
        exact hkeys (matchKey e rp) hkne (by rw [← hh] at hi; exact hi)
      constructor
      · refine ⟨by simpa [setResponse_length] using hlt, ?_⟩
        intro k2 hk2 hv
        simp only at hv
        exact hkeys k2 hk2 (pendingGet_delete_of_some _ _ _ _ hv)
      · simp only
        exact setResponse_get?_ne s.entries idx2 idx e hne
    | none =>
      rw [mergeStep_orphan s e rp hr hi]
      exact hpush _ rfl
  | none =>
    rw [mergeStep_noRes s e hr]
    exact hpush _ rfl

theorem foldl_entrySafe (l : List InspectorEvent) (s : MergeState) (k : String) (idx : Nat)
    (h : entrySafe s k idx) (hc : ∀ e ∈ l, closesKeyB e k = false) :
    entrySafe (l.foldl mergeStep s) k idx ∧
      (l.foldl mergeStep s).entries.get? idx = s.entries.get? idx := by
  induction l generalizing s with
  | nil => exact ⟨h, rfl⟩
  | cons e rest ih =>
    obtain ⟨h1, h2⟩ := mergeStep_entrySafe s e k idx h (hc e (by simp))
    obtain ⟨h3, h4⟩ := ih (mergeStep s e) h1 (fun x hx => hc x (List.mem_cons_of_mem e hx))
    exact ⟨h3, by rw [List.foldl_cons, h4, h2]⟩

/-- Entry `idx` awaits its closer under key `k`: the key is registered and
points at `idx`, and no other key points at `idx`. -/
def keyWaits (s : MergeState) (k : String) (idx : Nat) : Prop :=
  idx < s.entries.length ∧ pendingGet s.pending k = some idx ∧
    ∀ k2, k2 ≠ k → pendingGet s.pending k2 ≠ some idx

theorem mergeStep_keyWaits (s : MergeState) (e : InspectorEvent) (k : String) (idx : Nat)
    (h : keyWaits s k idx) (ho : opensKeyB e k = false) (hc : closesKeyB e k = false) :
    keyWaits (mergeStep s e) k idx ∧ (mergeStep s e).entries.get? idx = s.entries.get? idx := by
  obtain ⟨hlt, hreg, hkeys⟩ := h
  have hpush : ∀ s2 : MergeState, s2 = pushEntry s e →
      keyWaits s2 k idx ∧ s2.entries.get? idx = s.entries.get? idx := by
    rintro _ rfl
    have hget : (pushEntry s e).entries.get? idx = s.entries.get? idx := by
      rw [pushEntry_entries, List.get?_append hlt]
    have hlen : idx < (pushEntry s e).entries.length := by
      rw [pushEntry_entries]
      simp only [List.length_append, List.length_singleton]
      omega
    cases hq : lookupTable REQUEST_PAIR e.type with
    | some qp =>
      have hqk : matchKey e qp ≠ k := by
        simp only [opensKeyB, hq] at ho
        exact beq_eq_false_iff_ne.mp ho
      rw [pushEntry_open s e qp hq] at hget hlen ⊢
      refine ⟨⟨hlen, ?_, ?_⟩, hget⟩
      · simp only
        rw [pendingGet_set_ne _ _ _ _ (fun hh => hqk hh.symm)]
        exact hreg
      · intro k2 hk2 hv
        simp only at hv
        by_cases hk : k2 = matchKey e qp
        · rw [hk, pendingGet_set_self] at hv
          cases hv
          exact absurd hlt (by omega)
        · rw [pendingGet_set_ne _ _ _ _ hk] at hv
          exact hkeys k2 hk2 hv
    | none =>
      rw [pushEntry_plain s e hq] at hget hlen ⊢
      exact ⟨⟨hlen, hreg, hkeys⟩, hget⟩
  cases hr : lookupTable RESPONSE_PAIR e.type with
  | some rp =>
    have hkne : matchKey e rp ≠ k := by
      simp only [closesKeyB, hr] at hc
      exact beq_eq_false_iff_ne.mp hc
    cases hi : pendingGet s.pending (matchKey e rp) with
    | some idx2 =>
      rw [mergeStep_absorb s e rp idx2 hr hi]
      have hne : idx ≠ idx2 := by
        intro hh
        exact hkeys (matchKey e rp) hkne (by rw [← hh] at hi; exact hi)
      refine ⟨⟨by simpa [setResponse_length] using hlt, ?_, ?_⟩, ?_⟩
      · simp only
        rw [pendingGet_delete_ne _ _ _ hkne.symm]
        exact hreg
      · intro k2 hk2 hv
        simp only at hv
        exact hkeys k2 hk2 (pendingGet_delete_of_some _ _ _ _ hv)
      · simp only
        exact setResponse_get?_ne s.entries idx2 idx e hne
    | none =>
      rw [mergeStep_orphan s e rp hr hi]
      exact hpush _ rfl
  | none =>
    rw [mergeStep_noRes s e hr]
    exact hpush _ rfl

theorem foldl_keyWaits (l : List InspectorEvent) (s : MergeState) (k : String) (idx : Nat)
    (h : keyWaits s k idx)
    (ho : ∀ e ∈ l, opensKeyB e k = false) (hc : ∀ e ∈ l, closesKeyB e k = false) :
    keyWaits (l.foldl mergeStep s) k idx ∧
      (l.foldl mergeStep s).entries.get? idx = s.entries.get? idx := by
  induction l generalizing s with
  | nil => exact ⟨h, rfl⟩
  | cons e rest ih =>
    obtain ⟨h1, h2⟩ := mergeStep_keyWaits s e k idx h (ho e (by simp)) (hc e (by simp))
    obtain ⟨h3, h4⟩ := ih (mergeStep s e) h1
      (fun x hx => ho x (List.mem_cons_of_mem e hx))
      (fun x hx => hc x (List.mem_cons_of_mem e hx))
    exact ⟨h3, by rw [List.foldl_cons, h4, h2]⟩

/-- Processing an opening event from a bounded state: a fresh entry is pushed
at index `s.entries.length`, and from then on it waits under its match key. -/
theorem mergeStep_open (s : MergeState) (o : InspectorEvent) (qp : String)
    (hb : pendingBounded s) (hq : lookupTable REQUEST_PAIR o.type = some qp) :
    keyWaits (mergeStep s o) (matchKey o qp) s.entries.length ∧
      (mergeStep s o).entries.get? s.entries.length =
        some { id := s.nextId, request := o } := by
  have hr : lookupTable RESPONSE_PAIR o.type = none := request_not_response o.type qp hq
  rw [mergeStep_noRes s o hr, pushEntry_open s o qp hq]
  refine ⟨⟨?_, ?_, ?_⟩, ?_⟩
  · simp only [List.length_append, List.length_singleton]
    omega
  · simp only
    exact pendingGet_set_self s.pending (matchKey o qp) s.entries.length
  · intro k2 hk2 hv
    simp only at hv
    rw [pendingGet_set_ne _ _ _ _ hk2] at hv
    exact absurd (hb k2 s.entries.length hv) (by omega)
  · simp only
    rw [List.get?_concat_length]

/-- Processing the matching closing event: the waiting entry receives the
closer as its response, and afterwards no pending key points at it. -/
theorem mergeStep_close (s : MergeState) (c : InspectorEvent) (rp k : String) (idx : Nat)
    (entry : MergedEntry)
    (hw : keyWaits s k idx) (hentry : s.entries.get? idx = some entry)
    (hr : lookupTable RESPONSE_PAIR c.type = some rp) (hk : matchKey c rp = k) :
    entryStable (mergeStep s c) idx ∧
      (mergeStep s c).entries.get? idx = some { entry with response := some c } := by
  obtain ⟨hlt, hreg, hkeys⟩ := hw
  have hi : pendingGet s.pending (matchKey c rp) = some idx := by rw [hk]; exact hreg
  rw [mergeStep_absorb s c rp idx hr hi]
  refine ⟨⟨by simpa [setResponse_length] using hlt, ?_⟩, ?_⟩
  · intro k2 hv
    simp only at hv
    by_cases hk2 : k2 = matchKey c rp
    · rw [hk2, pendingGet_delete_self] at hv
      exact absurd hv (by simp)
    · rw [pendingGet_delete_ne _ _ _ hk2] at hv
      rw [hk] at hk2
      exact hkeys k2 hk2 hv
  · simp only
    exact setResponse_get?_self s.entries idx c entry hentry

/-! ### Main correlation theorems -/

/-- Decomposition of the merge over a stream prefix. -/
theorem mergeStates_append (l1 l2 : List InspectorEvent) :
    mergeStates (l1 ++ l2) = l2.foldl mergeStep (mergeStates l1) := by
  unfold mergeStates
  rw [List.foldl_append]

/-- Pairing of an opening event with its later closing event provided no
event in between closes or opens the same correlation key. -/
theorem mergeEvents_pairing (pre mid post : List InspectorEvent)
    (opener closer : InspectorEvent) (qp rp : String)
    (hq : lookupTable REQUEST_PAIR opener.type = some qp)
    (hr : lookupTable RESPONSE_PAIR closer.type = some rp)
    (hkey : matchKey closer rp = matchKey opener qp)
    (hmidClose : ∀ e ∈ mid, closesKeyB e (matchKey opener qp) = false)
    (hmidOpen : ∀ e ∈ mid, opensKeyB e (matchKey opener qp) = false) :
    ∃ entry, (mergeEvents (pre ++ opener :: (mid ++ closer :: post))).get?
        (mergeEvents pre).length = some entry ∧
      entry.request = opener ∧ entry.response = some closer := by
  set s1 := mergeStates pre with hs1
  set k := matchKey opener qp with hkdef
  set idx := s1.entries.length with hidx
  have hb : pendingBounded s1 := mergeStates_pendingBounded pre
  obtain ⟨hw2, hget2⟩ := mergeStep_open s1 opener qp hb hq
  set s2 := mergeStep s1 opener with hs2
  obtain ⟨hw3, hget3⟩ := foldl_keyWaits mid s2 k idx hw2 hmidOpen hmidClose
  set s3 := mid.foldl mergeStep s2 with hs3
  have hentry3 : s3.entries.get? idx = some { id := s1.nextId, request := opener } := by
    rw [hget3, hget2]
  obtain ⟨hst4, hget4⟩ :=
    mergeStep_close s3 closer rp k idx { id := s1.nextId, request := opener } hw3 hentry3 hr hkey
  set s4 := mergeStep s3 closer with hs4
  obtain ⟨_, hget5⟩ := foldl_entryStable post s4 idx hst4
  refine ⟨{ id := s1.nextId, request := opener, response := some closer }, ?_, rfl, rfl⟩
  have hdec : mergeStates (pre ++ opener :: (mid ++ closer :: post)) =
      post.foldl mergeStep s4 := by
    rw [mergeStates_append, List.foldl_cons, ← hs2]
    rw [List.foldl_append, List.foldl_cons, ← hs3, ← hs4]
  unfold mergeEvents
  rw [hdec, hget5, hget4]

/-- A second opening event with an identical pending correlation key creates
an independent entry and overwrites the pending index (last writer wins);
the first entry remains registered nowhere and unresolved. -/
theorem mergeEvents_duplicate_key (pre mid : List InspectorEvent)
    (o1 o2 : InspectorEvent) (q1 q2 : String)
    (hq1 : lookupTable REQUEST_PAIR o1.type = some q1)
    (hq2 : lookupTable REQUEST_PAIR o2.type = some q2)
    (hkey : matchKey o2 q2 = matchKey o1 q1)
    (hmidClose : ∀ e ∈ mid, closesKeyB e (matchKey o1 q1) = false)
    (hmidOpen : ∀ e ∈ mid, opensKeyB e (matchKey o1 q1) = false) :
    (mergeStates (pre ++ o1 :: (mid ++ [o2]))).entries.length
        = (mergeStates (pre ++ o1 :: mid)).entries.length + 1 ∧
      pendingGet (mergeStates (pre ++ o1 :: (mid ++ [o2]))).pending (matchKey o1 q1)
        = some (mergeStates (pre ++ o1 :: mid)).entries.length ∧
      ((mergeStates (pre ++ o1 :: (mid ++ [o2]))).entries.get?
          (mergeStates (pre ++ o1 :: mid)).entries.length).map
            (fun en => (en.request, en.response)) = some (o2, none) ∧
      ((mergeStates (pre ++ o1 :: (mid ++ [o2]))).entries.get?
          (mergeStates pre).entries.length).map
            (fun en => (en.request, en.response)) = some (o1, none) ∧
      (mergeStates pre).entries.length ≠ (mergeStates (pre ++ o1 :: mid)).entries.length := by
  set s1 := mergeStates pre with hs1
  set k := matchKey o1 q1 with hkdef
  set idx := s1.entries.length with hidx
  have hb : pendingBounded s1 := mergeStates_pendingBounded pre
  obtain ⟨hw2, hget2⟩ := mergeStep_open s1 o1 q1 hb hq1
  set s2 := mergeStep s1 o1 with hs2
  obtain ⟨hw3, hget3⟩ := foldl_keyWaits mid s2 k idx hw2 hmidOpen hmidClose
  set s3 := mid.foldl mergeStep s2 with hs3
  have hs3eq : mergeStates (pre ++ o1 :: mid) = s3 := by
    rw [mergeStates_append, List.foldl_cons, ← hs2, ← hs3]
  have hdec : mergeStates (pre ++ o1 :: (mid ++ [o2])) = mergeStep s3 o2 := by
    rw [mergeStates_append, List.foldl_cons, ← hs2]
    rw [List.foldl_append, ← hs3]
    rfl
  obtain ⟨hlt3, hreg3, _⟩ := hw3
  have hro2 : lookupTable RESPONSE_PAIR o2.type = none := request_not_response o2.type q2 hq2
  have hstep : mergeStep s3 o2 =
      { entries := s3.entries ++ [{ id := s3.nextId, request := o2 }],
        pending := pendingSet s3.pending (matchKey o2 q2) s3.entries.length,
        nextId := s3.nextId + 1 } := by
    rw [mergeStep_noRes s3 o2 hro2, pushEntry_open s3 o2 q2 hq2]
  rw [hdec, hs3eq, hstep]
  refine ⟨?_, ?_, ?_, ?_, ?_⟩
  · simp
  · simp only
    rw [hkey, pendingGet_set_self]
  · simp only
    rw [List.get?_concat_length]
    rfl
  · simp only
    rw [List.get?_append hlt3, hget3, hget2]
    rfl
  · omega

/-- An opening event whose correlation key is never closed afterwards leaves
its entry unresolved: no response, pending status, and failure flag. -/
theorem mergeEvents_unmatched_opener (pre post : List InspectorEvent)
    (opener : InspectorEvent) (qp : String)
    (hq : lookupTable REQUEST_PAIR opener.type = some qp)
    (hpost : ∀ e ∈ post, closesKeyB e (matchKey opener qp) = false) :
    ∃ entry, (mergeEvents (pre ++ opener :: post)).get? (mergeEvents pre).length
        = some entry ∧
      entry.request = opener ∧ entry.response = none ∧
      getEntryStatus entry = { label := "pending", color := "#ff9800" } ∧
      isEntryFailed entry = true := by
  set s1 := mergeStates pre with hs1
  set k := matchKey opener qp with hkdef
  set idx := s1.entries.length with hidx
  have hb : pendingBounded s1 := mergeStates_pendingBounded pre
  obtain ⟨hw2, hget2⟩ := mergeStep_open s1 opener qp hb hq
  set s2 := mergeStep s1 opener with hs2
  have hsafe2 : entrySafe s2 k idx := ⟨hw2.1, fun k2 hk2 => hw2.2.2 k2 hk2⟩
  obtain ⟨_, hget3⟩ := foldl_entrySafe post s2 k idx hsafe2 hpost
  refine ⟨{ id := s1.nextId, request := opener }, ?_, rfl, rfl, ?_, ?_⟩
  · have hdec : mergeStates (pre ++ opener :: post) = post.foldl mergeStep s2 := by
      rw [mergeStates_append, List.foldl_cons, ← hs2]
    unfold mergeEvents
    rw [hdec, hget3, hget2]
  · simp only [getEntryStatus, hq, Option.isSome_some, if_true]
  · simp only [isEntryFailed, hq]
    simp

/-! ### Length accounting and identifier invariants -/

theorem mergeStep_length (s : MergeState) (e : InspectorEvent) :
    (mergeStep s e).entries.length =
      if absorbs s e then s.entries.length else s.entries.length + 1 := by
  cases hr : lookupTable RESPONSE_PAIR e.type with
  | some rp =>
    cases hi : pendingGet s.pending (matchKey e rp) with
    | some idx =>
      rw [mergeStep_absorb s e rp idx hr hi]
      simp only [absorbs, hr, hi, Option.isSome_some, if_true]
      exact setResponse_length s.entries idx e
    | none =>
      rw [mergeStep_orphan s e rp hr hi, pushEntry_entries]
      simp [absorbs, hr, hi]
  | none =>
    rw [mergeStep_noRes s e hr, pushEntry_entries]
    simp [absorbs, hr]

theorem foldl_absorbStep (l : List InspectorEvent) (s : MergeState) (n : Nat) :
    (l.foldl absorbStep (s, n)).1 = l.foldl mergeStep s ∧
      (l.foldl absorbStep (s, n)).2 + (l.foldl mergeStep s).entries.length
        = n + s.entries.length + l.length := by
  induction l generalizing s n with
  | nil => exact ⟨rfl, by simp⟩
  | cons e rest ih =>
    have hlen := mergeStep_length s e
    by_cases ha : absorbs s e = true
    · have habs : absorbStep (s, n) e = (mergeStep s e, n + 1) := by
        simp [absorbStep, ha]
      have hl : (mergeStep s e).entries.length = s.entries.length := by
        rw [hlen]
        simp [ha]
      obtain ⟨ih1, ih2⟩ := ih (mergeStep s e) (n + 1)
      simp only [List.foldl_cons, habs]
      refine ⟨ih1, ?_⟩
      rw [ih2, hl, List.length_cons]
      omega
    · have habs : absorbStep (s, n) e = (mergeStep s e, n) := by
        simp [absorbStep, ha]
      have hl : (mergeStep s e).entries.length = s.entries.length + 1 := by
        rw [hlen]
        simp [ha]
      obtain ⟨ih1, ih2⟩ := ih (mergeStep s e) n
      simp only [List.foldl_cons, habs]
      refine ⟨ih1, ?_⟩
      rw [ih2, hl, List.length_cons]
      omega

/-- Entry ids count up from zero and the next id equals the entry count. -/
def idsAligned (s : MergeState) : Prop :=
  s.entries.map (·.id) = List.range s.entries.length ∧ s.nextId = s.entries.length

theorem mergeStep_idsAligned (s : MergeState) (e : InspectorEvent)
    (h : idsAligned s) : idsAligned (mergeStep s e) := by
  obtain ⟨hmap, hnext⟩ := h
  have hpush : idsAligned (pushEntry s e) := by
    constructor
    · rw [pushEntry_entries]
      simp only [List.map_append, List.length_append, List.length_singleton]
      rw [hmap, hnext]
      simp [List.range_succ]
    · rw [pushEntry_entries, pushEntry_nextId, hnext]
      simp
  cases hr : lookupTable RESPONSE_PAIR e.type with
  | some rp =>
    cases hi : pendingGet s.pending (matchKey e rp) with
    | some idx =>
      rw [mergeStep_absorb s e rp idx hr hi]
      constructor
      · simp only
        rw [setResponse_map_id, setResponse_length, hmap]
      · simp only
        rw [setResponse_length, hnext]
    | none =>
      rw [mergeStep_orphan s e rp hr hi]
      exact hpush
  | none =>
    rw [mergeStep_noRes s e hr]
    exact hpush

theorem foldl_idsAligned (l : List InspectorEvent) (s : MergeState)
    (h : idsAligned s) : idsAligned (l.foldl mergeStep s) := by
  induction l generalizing s with
  | nil => exact h
  | cons e rest ih => exact ih (mergeStep s e) (mergeStep_idsAligned s e h)

theorem mergeStates_idsAligned (events : List InspectorEvent) :
    idsAligned (mergeStates events) :=
  foldl_idsAligned events initState ⟨rfl, rfl⟩

/-! ### Concrete sample events used by counterexamples and witnesses -/

/-- Sample opening tool call (session "a", tool "search"). -/
def toolCallEv : InspectorEvent :=
  { type := "TOOL_CALL", ts := some 100,
    rest := [("sessionId", Json.str "a"), ("tool", Json.str "search")] }

/-- Sample closing tool result matching `toolCallEv`. -/
def toolResultEv : InspectorEvent :=
  { type := "TOOL_RESULT_AI", ts := some 300,
    rest := [("sessionId", Json.str "a"), ("tool", Json.str "search"),
             ("result", Json.str "ok")] }

/-- Sample prompt opening event (session "a"). -/
def promptSentEv : InspectorEvent :=
  { type := "PROMPT_SENT", ts := some 100,
    rest := [("sessionId", Json.str "a"), ("input", Json.str "hi")] }

/-- Sample prompt response matching `promptSentEv`, 50 ms later. -/
def promptResponseEv : InspectorEvent :=
  { type := "PROMPT_RESPONSE", ts := some 150,
    rest := [("sessionId", Json.str "a"), ("result", Json.str "hello")] }

/-- Prompt response whose timestamp precedes the request timestamp. -/
def promptEarlyResponseEv : InspectorEvent :=
  { type := "PROMPT_RESPONSE", ts := some 50,
    rest := [("sessionId", Json.str "a"), ("result", Json.str "late")] }

/-- Prompt event whose payload contains a non-ASCII character. -/
def accentEv : InspectorEvent :=
  { type := "PROMPT_SENT", ts := some 1, rest := [("input", Json.str "é")] }

/-- Tool call carrying neither a sessionId nor a tool field. -/
def anonToolCallEv1 : InspectorEvent :=
  { type := "TOOL_CALL", ts := some 1, rest := [] }

/-- A second keyless tool call with a different payload. -/
def anonToolCallEv2 : InspectorEvent :=
  { type := "TOOL_CALL", ts := some 2, rest := [("args", Json.arr [Json.num 7])] }

/-! ### Claim theorems -/

/-- Claim C1, counterexample to the claim as stated: in the stream
`[toolCallEv, toolCallEv, toolResultEv]` the first opening event is followed
by a correctly keyed closing event with no intervening closing event of the
same key (the middle event is an opening kind, not a closing kind), yet the
entry created for the first opening event ends the merge with no response:
the closing event is paired with the second, later opening instead. -/
theorem claim_C1_counterexample :
    lookupTable REQUEST_PAIR toolCallEv.type = some "tool" ∧
    lookupTable RESPONSE_PAIR toolResultEv.type = some "tool" ∧
    matchKey toolResultEv "tool" = matchKey toolCallEv "tool" ∧
    closesKeyB toolCallEv (matchKey toolCallEv "tool") = false ∧
    ((mergeEvents [toolCallEv, toolCallEv, toolResultEv]).get? 0).map
        (fun en => en.response) = some none ∧
    ((mergeEvents [toolCallEv, toolCallEv, toolResultEv]).get? 0).map
        (fun en => en.response) ≠ some (some toolResultEv) := by
  refine ⟨rfl, rfl, rfl, rfl, rfl, ?_⟩
  intro h
  have h5 : ((mergeEvents [toolCallEv, toolCallEv, toolResultEv]).get? 0).map
      (fun en => en.response) = some none := rfl
  rw [h5] at h
  simp at h

/-- Claim C1 (amended with the duplicate-opener proviso forced by the
counterexample): if an opening event is followed later in the stream by a
closing event whose pair-type correlation key matches it, and no closing
event *and no opening event* with the same key occurs between them, then the
entry created for that opening event ends the merge with its response equal
to that closing event. -/
theorem claim_C1_pairing (pre mid post : List InspectorEvent)
    (opener closer : InspectorEvent) (qp rp : String)
    (hq : lookupTable REQUEST_PAIR opener.type = some qp)
    (hr : lookupTable RESPONSE_PAIR closer.type = some rp)
    (hkey : matchKey closer rp = matchKey opener qp)
    (hmidClose : ∀ e ∈ mid, closesKeyB e (matchKey opener qp) = false)
    (hmidOpen : ∀ e ∈ mid, opensKeyB e (matchKey opener qp) = false) :
    ∃ entry, (mergeEvents (pre ++ opener :: (mid ++ closer :: post))).get?
        (mergeEvents pre).length = some entry ∧
      entry.request = opener ∧ entry.response = some closer :=
  mergeEvents_pairing pre mid post opener closer qp rp hq hr hkey hmidClose hmidOpen

/-- Claim C1 witness: a prompt request directly followed by its response is
paired into the single resulting entry. -/
theorem claim_C1_pairing_witness :
    ∃ entry, (mergeEvents [promptSentEv, promptResponseEv]).get? 0 = some entry ∧
      entry.request = promptSentEv ∧ entry.response = some promptResponseEv :=
  claim_C1_pairing [] [] [] promptSentEv promptResponseEv "prompt" "prompt"
    rfl rfl rfl (fun e he => absurd he (List.not_mem_nil e))
    (fun e he => absurd he (List.not_mem_nil e))

/-- Claim C2, counterexample to "events sharing an identical correlation key
pair first-opened-first-closed": with two identical openings followed by one
closing, the closing event is attached to the *second* (most recent) opening
while the first remains unresolved. -/
theorem claim_C2_counterexample :
    (mergeEvents [toolCallEv, toolCallEv, toolResultEv]).map
        (fun en => (en.id, en.request, en.response)) =
      [(0, toolCallEv, none), (1, toolCallEv, some toolResultEv)] := by
  rfl

/-- Claim C2 (amended: duplicate keys pair most-recently-opened-first-closed,
not first-opened-first-closed): an opening event arriving while an identical
correlation key is pending creates a second independent entry, and the
pending table keeps only the most recent entry's index for that key (last
writer wins); the superseded first entry stays unresolved. -/
theorem claim_C2_last_writer (pre mid : List InspectorEvent)
    (o1 o2 : InspectorEvent) (q1 q2 : String)
    (hq1 : lookupTable REQUEST_PAIR o1.type = some q1)
    (hq2 : lookupTable REQUEST_PAIR o2.type = some q2)
    (hkey : matchKey o2 q2 = matchKey o1 q1)
    (hmidClose : ∀ e ∈ mid, closesKeyB e (matchKey o1 q1) = false)
    (hmidOpen : ∀ e ∈ mid, opensKeyB e (matchKey o1 q1) = false) :
    (mergeStates (pre ++ o1 :: (mid ++ [o2]))).entries.length
        = (mergeStates (pre ++ o1 :: mid)).entries.length + 1 ∧
      pendingGet (mergeStates (pre ++ o1 :: (mid ++ [o2]))).pending (matchKey o1 q1)
        = some (mergeStates (pre ++ o1 :: mid)).entries.length ∧
      ((mergeStates (pre ++ o1 :: (mid ++ [o2]))).entries.get?
          (mergeStates (pre ++ o1 :: mid)).entries.length).map
            (fun en => (en.request, en.response)) = some (o2, none) ∧
      ((mergeStates (pre ++ o1 :: (mid ++ [o2]))).entries.get?
          (mergeStates pre).entries.length).map
            (fun en => (en.request, en.response)) = some (o1, none) ∧
      (mergeStates pre).entries.length ≠ (mergeStates (pre ++ o1 :: mid)).entries.length :=
  mergeEvents_duplicate_key pre mid o1 o2 q1 q2 hq1 hq2 hkey hmidClose hmidOpen

/-- Claim C2 witness: a duplicate tool call supersedes the pending key while
both entries exist independently. -/
theorem claim_C2_last_writer_witness :
    (mergeStates [toolCallEv, toolCallEv]).entries.length
        = (mergeStates [toolCallEv]).entries.length + 1 ∧
      pendingGet (mergeStates [toolCallEv, toolCallEv]).pending (matchKey toolCallEv "tool")
        = some (mergeStates [toolCallEv]).entries.length ∧
      ((mergeStates [toolCallEv, toolCallEv]).entries.get?
          (mergeStates [toolCallEv]).entries.length).map
            (fun en => (en.request, en.response)) = some (toolCallEv, none) ∧
      ((mergeStates [toolCallEv, toolCallEv]).entries.get?
          (mergeStates []).entries.length).map
            (fun en => (en.request, en.response)) = some (toolCallEv, none) ∧
      (mergeStates []).entries.length ≠ (mergeStates [toolCallEv]).entries.length :=
  claim_C2_last_writer [] [] toolCallEv toolCallEv "tool" "tool" rfl rfl rfl
    (fun e he => absurd he (List.not_mem_nil e))
    (fun e he => absurd he (List.not_mem_nil e))

/-- Claim C3: the merged output is never longer than the input, and is
exactly the input length minus the number of closing events absorbed into
pending entries. -/
theorem claim_C3_length (events : List InspectorEvent) :
    (mergeEvents events).length ≤ events.length ∧
      (mergeEvents events).length = events.length - absorbedCount events := by
  have h := (foldl_absorbStep events initState 0).2
  have hinit : initState.entries.length = 0 := rfl
  unfold mergeEvents mergeStates absorbedCount
  unfold mergeStates at h
  rw [hinit] at h
  omega

/-- Claim C4: an opening (pairable) event with no subsequent matching closing
event yields an entry with no response, whose status is the label "pending"
and which the failure predicate reports as failed. -/
theorem claim_C4_unmatched (pre post : List InspectorEvent)
    (opener : InspectorEvent) (qp : String)
    (hq : lookupTable REQUEST_PAIR opener.type = some qp)
    (hpost : ∀ e ∈ post, closesKeyB e (matchKey opener qp) = false) :
    ∃ entry, (mergeEvents (pre ++ opener :: post)).get? (mergeEvents pre).length
        = some entry ∧
      entry.request = opener ∧ entry.response = none ∧
      getEntryStatus entry = { label := "pending", color := "#ff9800" } ∧
      isEntryFailed entry = true :=
  mergeEvents_unmatched_opener pre post opener qp hq hpost

/-- Claim C4 witness: the spec scenario of a lone `TOOL_CALL` produces one
pending, failed entry. -/
theorem claim_C4_unmatched_witness :
    ∃ entry, (mergeEvents [toolCallEv]).get? 0 = some entry ∧
      entry.request = toolCallEv ∧ entry.response = none ∧
      getEntryStatus entry = { label := "pending", color := "#ff9800" } ∧
      isEntryFailed entry = true :=
  claim_C4_unmatched [] [] toolCallEv "tool" rfl
    (fun e he => absurd he (List.not_mem_nil e))

/-- Claim C5, counterexample to the non-negativity clause as stated: in
`[promptSentEv, promptEarlyResponseEv]` both timestamps are numeric and the
response occurs after the request in input order, yet the computed duration
is the negative value -50, formatted "-50 ms". -/
theorem claim_C5_counterexample :
    promptSentEv.ts = some 100 ∧ promptEarlyResponseEv.ts = some 50 ∧
    ((mergeEvents [promptSentEv, promptEarlyResponseEv]).get? 0).map
        (fun en => (en.request, en.response)) =
      some (promptSentEv, some promptEarlyResponseEv) ∧
    ((mergeEvents [promptSentEv, promptEarlyResponseEv]).get? 0).map durationMs
        = some (some (-50)) ∧
    ((mergeEvents [promptSentEv, promptEarlyResponseEv]).get? 0).map getEntryDuration
        = some (some "-50 ms") ∧
    (-50 : Int) < 0 := by
  exact ⟨rfl, rfl, rfl, rfl, rfl, by decide⟩

/-- Claim C5 (amended: non-negativity additionally requires that the response
timestamp is not smaller than the request timestamp, which the merge does not
enforce): `getEntryDuration` returns null iff the response is absent or a
timestamp is missing; with both timestamps present it returns the formatted
difference, which is nonnegative whenever the response timestamp is at least
the request timestamp, and is rendered in milliseconds below 1000. -/
theorem claim_C5_duration (e : MergedEntry) :
    (getEntryDuration e = none ↔
      e.response = none ∨ e.request.ts = none ∨
        (∃ r, e.response = some r ∧ r.ts = none)) ∧
    (∀ r a b, e.response = some r → e.request.ts = some a → r.ts = some b →
      getEntryDuration e = some (formatDuration (b - a)) ∧
      (a ≤ b → 0 ≤ b - a) ∧
      (b - a < 1000 → getEntryDuration e = some (s!"{b - a} ms"))) := by
  constructor
  · cases hresp : e.response with
    | none =>
      simp [getEntryDuration, durationMs, hresp]
    | some r =>
      cases hts1 : e.request.ts with
      | none => simp [getEntryDuration, durationMs, hresp, hts1]
      | some a =>
        cases hts2 : r.ts with
        | none => simp [getEntryDuration, durationMs, hresp, hts1, hts2]
        | some b =>
          simp only [getEntryDuration, durationMs, hresp, hts1, hts2, Option.map_some]
          constructor
          · intro h
            exact absurd h (by simp)
          · rintro (h | h | ⟨r2, hr2, hr2ts⟩)
            · exact Option.noConfusion h
            · exact Option.noConfusion h
            · injection hr2 with hrr
              rw [← hrr] at hr2ts
              rw [hr2ts] at hts2
              exact Option.noConfusion hts2
  · intro r a b hresp hts1 hts2
    have hval : getEntryDuration e = some (formatDuration (b - a)) := by
      simp [getEntryDuration, durationMs, hresp, hts1, hts2]
    refine ⟨hval, by omega, ?_⟩
    intro hlt
    rw [hval]
    unfold formatDuration
    rw [if_pos hlt]

/-- Entry pairing the sample prompt request with its response. -/
def pairedPromptEntry : MergedEntry :=
  { id := 0, request := promptSentEv, response := some promptResponseEv }

/-- Claim C5 witness: the spec scenario request/response pair 50 ms apart
yields the duration "50 ms", and the difference is nonnegative. -/
theorem claim_C5_duration_witness :
    getEntryDuration pairedPromptEntry = some "50 ms" ∧ (0 : Int) ≤ 150 - 100 := by
  have h := (claim_C5_duration pairedPromptEntry).2 promptResponseEv 100 150 rfl rfl rfl
  exact ⟨h.2.2 (by decide), h.2.1 (by decide)⟩

/-- Claim C10: the ids of the merged entries are exactly 0, 1, 2, …: the
entry at each output position carries that position as its id, even when
closing events are absorbed without creating entries. -/
theorem claim_C10_ids (events : List InspectorEvent) :
    (mergeEvents events).map (fun en => en.id)
      = List.range (mergeEvents events).length :=
  (mergeStates_idsAligned events).1

/-- Entry holding the accented prompt event and no response. -/
def accentEntry : MergedEntry := { id := 0, request := accentEv }

/-- Entry holding the sample prompt request and no response. -/
def lonePromptEntry : MergedEntry := { id := 0, request := promptSentEv }

/-- Claim C6, counterexample to "serialized byte length": for a request whose
payload holds the two-byte character "é", the serialization has UTF-8 byte
length 14 but JavaScript string length 13, and the entry size reports 13. -/
theorem claim_C6_counterexample :
    accentEntry.response = none ∧
    jsonLen accentEv = 13 ∧
    (jsonStringify (Json.obj accentEv.rest)).utf8ByteSize = 14 ∧
    getEntrySize accentEntry = "13 B" ∧
    getEntrySize accentEntry ≠ "14 B" := by
  refine ⟨rfl, rfl, by decide, rfl, by decide⟩

/-- Claim C6 (amended: the reported size is the UTF-16 code-unit length of
the JSON serialization, the JavaScript string length, which equals the byte
length only for ASCII payloads): for a request-only entry the size is exactly
the serialized length of the request's fields excluding the kind tag and
timestamp; a response's serialized length is added when present; formatting
switches from bytes to one-decimal kilobytes at 1024. -/
theorem claim_C6_size (e : MergedEntry) :
    (e.response = none →
      getEntrySize e =
        if utf16Length (jsonStringify (Json.obj e.request.rest)) < 1024
        then s!"{utf16Length (jsonStringify (Json.obj e.request.rest))} B"
        else kbFixed1 (utf16Length (jsonStringify (Json.obj e.request.rest)))) ∧
    (∀ r, e.response = some r →
      getEntrySize e =
        if jsonLen e.request + jsonLen r < 1024
        then s!"{jsonLen e.request + jsonLen r} B"
        else kbFixed1 (jsonLen e.request + jsonLen r)) := by
  constructor
  · intro hresp
    simp [getEntrySize, jsonLen, hresp]
  · intro r hresp
    simp [getEntrySize, jsonLen, hresp]

/-- Claim C6 witness: the sample prompt request alone serializes to 30 code
units and is reported as "30 B". -/
theorem claim_C6_size_witness : getEntrySize lonePromptEntry = "30 B" := by
  have h := (claim_C6_size lonePromptEntry).1 rfl
  rw [h]
  rfl

/-- Sample prompt error event. -/
def promptErrorEv : InspectorEvent :=
  { type := "PROMPT_ERROR", ts := some 200,
    rest := [("sessionId", Json.str "a"), ("error", Json.str "boom")] }

/-- Claim C7: `isEventError` holds exactly for the designated error kind
`PROMPT_ERROR`, and for the tool-result kind `TOOL_RESULT_AI` when its error
field is present (not absent, not null) and not the empty string. -/
theorem claim_C7_isError (e : InspectorEvent) :
    isEventError e = true ↔
      e.type = "PROMPT_ERROR" ∨
        (e.type = "TOOL_RESULT_AI" ∧ e.getField "error" ≠ none ∧
          e.getField "error" ≠ some Json.null ∧
          e.getField "error" ≠ some (Json.str "")) := by
  unfold isEventError
  by_cases h1 : e.type = "PROMPT_ERROR"
  · simp [h1]
  · rw [if_neg (by simpa using h1)]
    by_cases h2 : e.type = "TOOL_RESULT_AI"
    · have hb2 : (e.type == "TOOL_RESULT_AI") = true := by simpa using h2
      cases hf : e.getField "error" with
      | none => simp [errorFieldSet, h1, h2, hf, hb2]
      | some v =>
        cases v with
        | null => simp [errorFieldSet, h1, h2, hf, hb2]
        | bool b => simp [errorFieldSet, h1, h2, hf, hb2]
        | num n => simp [errorFieldSet, h1, h2, hf, hb2]
        | str s =>
          by_cases hs : s = ""
          · simp [errorFieldSet, h1, h2, hf, hb2, hs]
          · simp [errorFieldSet, h1, h2, hf, hb2, hs]
        | arr xs => simp [errorFieldSet, h1, h2, hf, hb2]
        | obj fs => simp [errorFieldSet, h1, h2, hf, hb2]
    · have hb2 : (e.type == "TOOL_RESULT_AI") = false := by simpa using h2
      simp [hb2, h1, h2]

/-- Claim C7 witness: the sample prompt error event is an error. -/
theorem claim_C7_isError_witness : isEventError promptErrorEv = true :=
  (claim_C7_isError promptErrorEv).mpr (Or.inl rfl)

/-- Lookup in an association list with pairwise distinct keys finds exactly
the member pair. -/
theorem find?_of_mem_keys_nodup (l : List (String × EventCategory))
    (hnd : (l.map (fun p => p.1)).Nodup) (t : String) (c : EventCategory)
    (hmem : (t, c) ∈ l) : l.find? (fun p => p.1 == t) = some (t, c) := by
  induction l with
  | nil => simp at hmem
  | cons p rest ih =>
    rw [List.map_cons, List.nodup_cons] at hnd
    rcases List.mem_cons.mp hmem with heq | hmem2
    · subst heq
      rw [find?_cons_cond]
      simp
    · have hp1 : p.1 ≠ t := by
        intro hh
        exact hnd.1 (by rw [hh]; exact List.mem_map.mpr ⟨(t, c), hmem2, rfl⟩)
      rw [find?_cons_cond]
      have hb : (p.1 == t) = false := by simpa using hp1
      rw [hb]
      simpa using ih hnd.2 hmem2

/-- Claim C8: `getCategory` is total: its value is always one of the five
categories; a kind registered in the category table maps to its category
(each known kind occurs exactly once); an unregistered kind maps to System. -/
theorem claim_C8_category (t : String) :
    (getCategory t = EventCategory.AI ∨ getCategory t = EventCategory.Tool ∨
      getCategory t = EventCategory.WebMCP ∨ getCategory t = EventCategory.Event ∨
      getCategory t = EventCategory.System) ∧
    (∀ c, (t, c) ∈ TYPE_TO_CATEGORY → getCategory t = c) ∧
    ((∀ c, (t, c) ∉ TYPE_TO_CATEGORY) → getCategory t = EventCategory.System) := by
  refine ⟨?_, ?_, ?_⟩
  · cases h : getCategory t <;> simp
  · intro c hc
    unfold getCategory
    rw [find?_of_mem_keys_nodup TYPE_TO_CATEGORY (by decide) t c hc]
    rfl
  · intro hall
    unfold getCategory
    cases hf : TYPE_TO_CATEGORY.find? (fun p => p.1 == t) with
    | none => rfl
    | some q =>
      have hmem := List.mem_of_find?_eq_some hf
      have hkey := List.find?_some hf
      simp only [beq_iff_eq] at hkey
      have hq : q = (t, q.2) := by
        cases q
        simp only at hkey
        simp [hkey]
      rw [hq] at hmem
      exact absurd hmem (hall q.2)

/-- Claim C8 witness: a known kind maps to its table category and an unknown
kind maps to System. -/
theorem claim_C8_category_witness :
    getCategory "TOOL_CALL" = EventCategory.Tool ∧
      getCategory "BOGUS" = EventCategory.System := by
  constructor
  · exact (claim_C8_category "TOOL_CALL").2.1 EventCategory.Tool (by decide)
  · exact (claim_C8_category "BOGUS").2.2 (fun c => by cases c <;> decide)

/-- Claim C9: two events of the same pair-type that both lack a sessionId
(and, for the tool pair-type, agree on the tool field, including both
missing) produce the identical correlation key, so their flows collapse into
the same pending-table bucket. -/
theorem claim_C9_matchKey (e1 e2 : InspectorEvent) (pt : String)
    (h1 : e1.getField "sessionId" = none) (h2 : e2.getField "sessionId" = none)
    (ht : pt = "tool" → e1.getField "tool" = e2.getField "tool") :
    matchKey e1 pt = matchKey e2 pt := by
  unfold matchKey
  rw [h1, h2]
  by_cases hp : pt = "tool"
  · rw [ht hp]
  · have hb : (pt == "tool") = false := by simpa using hp
    simp [hb]

/-- Claim C9 witness: two keyless tool calls share the correlation key. -/
theorem claim_C9_matchKey_witness :
    matchKey anonToolCallEv1 "tool" = matchKey anonToolCallEv2 "tool" :=
  claim_C9_matchKey anonToolCallEv1 anonToolCallEv2 "tool" rfl rfl (fun _ => rfl)
